import Mathlib

set_option autoImplicit false
set_option maxRecDepth 8000

/-!
Verification of the wad archive-access layer (src/wad/archive.rs, src/base/lib.rs).

The embedding models the container file as a list of bytes (natural numbers),
the shared stream handle's read cursor as an explicit natural number, and every
abort path of the original code (assert! / unwrap panics, and the
non-termination of read_at_least at end-of-stream) as explicit outcome
constructors, so that "returns an error value", "panics" and "never returns"
are distinguishable propositions.
-/

namespace Wad

/-- A lump identifier: the 8 name bytes of a directory entry (after
normalization).  WadName itself lives in types.rs, outside the provided
sources; here it is just its byte content. -/
abbrev WadName := List Nat

/-- Modelled from the spec: the externally produced metadata object
(section 4.6, "delegated entirely to the external metadata collaborator";
WadMetadata is not among the provided sources).  Its internal structure is
out of scope, so it is represented by an abstract numeric token. -/
abbrev Metadata := Nat

/-- Uppercasing of one ASCII byte (part of the identifier normalization). -/
def upperByte (b : Nat) : Nat := if 97 ≤ b ∧ b ≤ 122 then b - 32 else b

/-- Zeroes every byte from the first NUL onward, keeping the length. -/
def zeroFromNul : List Nat → List Nat
  | [] => []
  | b :: rest => if b = 0 then List.replicate (rest.length + 1) 0 else b :: zeroFromNul rest

/-- Modelled from the spec: WadName::canonicalise (types.rs, not among the
provided sources).  Section 4.2: identifiers are normalized by "trim/pad
rules — case and null-padding" to the fixed 8-byte width, "applied
identically to all comparisons downstream": uppercase the bytes, zero
everything from the first NUL onward, null-pad to 8 bytes. -/
def canonicalise (nm : List Nat) : WadName :=
  zeroFromNul (((nm.take 8).map upperByte)) ++ List.replicate (8 - (nm.take 8).length) 0

/-- The sentinel identifier: the canonical form of the literal
THINGS (6 bytes) followed by two NUL bytes, as in
fileinfo.name == b"THINGS\x5c0\x5c0".to_wad_name() in Archive::open. -/
def sentinelName : WadName := [84, 72, 73, 78, 71, 83, 0, 0]

/-- Container variants (util.rs wad_type_from_info's result type, modelled
from the spec: two recognized container kinds). -/
inductive WadType where
  | primary
  | patch
deriving DecidableEq

/-- Decoded container header (types.rs WadInfo; layout from spec section 6:
4 magic bytes, entry count u32, directory byte offset u32). -/
structure WadInfo where
  identification : List Nat
  num_lumps : Nat
  info_table_offset : Nat
deriving DecidableEq

/-- Decoded directory entry (types.rs WadLump; layout from spec section 6:
file offset u32, length u32, 8 name bytes). -/
structure WadLump where
  file_pos : Nat
  size : Nat
  name : List Nat
deriving DecidableEq

/-- Default directory entry used with List.getD (out-of-range positional
access panics in the source; claims only quantify over in-range positions). -/
def dummyLump : WadLump := ⟨0, 0, []⟩

/-- Catalog record kept per directory entry (archive.rs LumpInfo). -/
structure LumpInfo where
  name : WadName
  offset : Nat
  size : Nat
deriving DecidableEq

/-- Default catalog record for List.getD. -/
def dummyInfo : LumpInfo := ⟨[], 0, 0⟩

/-- Modelled from the spec: the 4-byte magic of the primary container
variant ("IWAD" in the classic format). -/
def primaryMagic : List Nat := [73, 87, 65, 68]

/-- Modelled from the spec: the 4-byte magic of the patch container
variant ("PWAD"). -/
def patchMagic : List Nat := [80, 87, 65, 68]

/-- Modelled from the spec: util.rs wad_type_from_info (not among the
provided sources).  Section 4.1: "Validates the magic against the known
variant set; fails ... if no variant matches". -/
def wad_type_from_info (h : WadInfo) : Option WadType :=
  if h.identification = primaryMagic then some WadType.primary
  else if h.identification = patchMagic then some WadType.patch
  else none

/-- Little-endian unsigned 32-bit decode of four bytes. -/
def u32le (b0 b1 b2 b3 : Nat) : Nat := b0 + 256 * b1 + 65536 * b2 + 16777216 * b3

/-- The n bytes of f starting at position p (shorter if f ends earlier). -/
def sliceBytes (f : List Nat) (p n : Nat) : List Nat := (f.drop p).take n

/-- One blocking fixed-size read at position p: some slice if the stream
holds n more bytes, none if it would hit end-of-stream first (in the source,
read_at_least then keeps receiving 0 bytes and never returns; see
read_at_least below and eof_read_never_returns). -/
def bytesAt (f : List Nat) (p n : Nat) : Option (List Nat) :=
  if p + n ≤ f.length then some (sliceBytes f p n) else none

/-- Field-by-field decode of the 12 header bytes (read_binary::<WadInfo>). -/
def decodeWadInfo (b : List Nat) : WadInfo :=
  ⟨b.take 4,
   u32le (b.getD 4 0) (b.getD 5 0) (b.getD 6 0) (b.getD 7 0),
   u32le (b.getD 8 0) (b.getD 9 0) (b.getD 10 0) (b.getD 11 0)⟩

/-- Field-by-field decode of one 16-byte directory entry
(read_binary::<WadLump>). -/
def decodeWadLump (b : List Nat) : WadLump :=
  ⟨u32le (b.getD 0 0) (b.getD 1 0) (b.getD 2 0) (b.getD 3 0),
   u32le (b.getD 4 0) (b.getD 5 0) (b.getD 6 0) (b.getD 7 0),
   (b.drop 8).take 8⟩

/-- The header decoded from the first 12 bytes of the file. -/
def fileHeader (f : List Nat) : WadInfo := decodeWadInfo (sliceBytes f 0 12)

/-- The directory entries decoded from consecutive 16-byte records starting
at position pos (count-many of them). -/
def dirEntries (f : List Nat) (pos : Nat) : Nat → List WadLump
  | 0 => []
  | r + 1 => decodeWadLump (sliceBytes f pos 16) :: dirEntries f (pos + 16) r

/-- The full directory of the file, as located by its header. -/
def fileEntries (f : List Nat) : List WadLump :=
  dirEntries f (fileHeader f).info_table_offset (fileHeader f).num_lumps

/-- The mutable state accumulated by the lump loop of Archive::open:
the catalog vector, the name map and the level markers. -/
structure BuildState where
  lumps : List LumpInfo
  index_map : List (WadName × Nat)
  levels : List Nat
deriving DecidableEq

/-- The empty state the loop starts from. -/
def initialState : BuildState := ⟨[], [], []⟩

/-- Lookup in the name map.  The map is an association list in which insert
prepends, so the first match is the most recent insertion — the observable
behavior of HashMap::insert / HashMap::get. -/
def mGet : List (WadName × Nat) → WadName → Option Nat
  | [], _ => none
  | (k, v) :: rest, n => if k = n then some v else mGet rest n

/-- Result of the catalog-building loop run on already-decoded entries:
either the final state, or the abort of assert!(i_lump > 0). -/
inductive CatResult where
  | ok (st : BuildState)
  | panicked
deriving DecidableEq

/-- The catalog record pushed for a decoded entry. -/
def decodeEntry (e : WadLump) : LumpInfo := ⟨canonicalise e.name, e.file_pos, e.size⟩

/-- The body of the lump loop of Archive::open (lines 48-61), run over a
list of already-decoded entries with i the current directory position:
normalize the name, insert it into the map with value lumps.len() (so later
duplicates overwrite earlier ones), push the catalog record, and on the
sentinel name assert i > 0 and record position i - 1 as a level marker. -/
def buildCatalog : BuildState → Nat → List WadLump → CatResult
  | st, _, [] => .ok st
  | st, i, e :: rest =>
    let nm := canonicalise e.name
    let lumps2 := st.lumps ++ [⟨nm, e.file_pos, e.size⟩]
    let imap2 := (nm, st.lumps.length) :: st.index_map
    if nm = sentinelName then
      if i = 0 then .panicked
      else buildCatalog ⟨lumps2, imap2, st.levels ++ [i - 1]⟩ (i + 1) rest
    else buildCatalog ⟨lumps2, imap2, st.levels⟩ (i + 1) rest

/-- Result of the lump loop run against the raw file: the final state and
cursor, the assert abort, or non-termination of a truncated read. -/
inductive LoopResult where
  | ok (st : BuildState) (pos : Nat)
  | panicked
  | diverged
deriving DecidableEq

/-- The lump loop of Archive::open against the raw file bytes: reads one
16-byte entry per iteration at the cursor, interleaving the reads with the
catalog updates exactly as the source does (so an assert abort at an early
entry happens before a truncation at a later one is noticed). -/
def buildLoop (f : List Nat) : Nat → Nat → Nat → BuildState → LoopResult
  | pos, _, 0, st => .ok st pos
  | pos, i, r + 1, st =>
    match bytesAt f pos 16 with
    | none => .diverged
    | some eb =>
      let e := decodeWadLump eb
      let nm := canonicalise e.name
      let lumps2 := st.lumps ++ [⟨nm, e.file_pos, e.size⟩]
      let imap2 := (nm, st.lumps.length) :: st.index_map
      if nm = sentinelName then
        if i = 0 then .panicked
        else buildLoop f (pos + 16) (i + 1) r ⟨lumps2, imap2, st.levels ++ [i - 1]⟩
      else buildLoop f (pos + 16) (i + 1) r ⟨lumps2, imap2, st.levels⟩

/-- The opened archive: the stream cursor of the owned file handle, the
catalog, the name map, the level markers and the bound metadata
(archive.rs struct Archive; the File handle is modelled by its cursor,
the file bytes being passed alongside where reads need them). -/
structure Archive where
  pos : Nat
  index_map : List (WadName × Nat)
  lumps : List LumpInfo
  levels : List Nat
  meta : Metadata
deriving DecidableEq

/-- The error message of the magic check, without the interpolated path. -/
def invalidWadMsg : String := "Invalid WAD file: Incorrect header id."

/-- Outcome of Archive::open: a full archive, a returned error value
(the Err branch of the Result), an assert/unwrap abort, or non-termination
of a truncated read. -/
inductive OpenResult where
  | ok (a : Archive)
  | error (msg : String)
  | panicked
  | diverged
deriving DecidableEq

/-- Archive::open: read and check the 12-byte header, seek to the directory
offset, run the lump loop, then load the metadata (whose production is the
external collaborator's; its result is passed in) and assemble the Archive.
A header read hitting end-of-stream diverges (read_binary's unwrap is never
reached because read_at_least does not return at end-of-stream). -/
def openWad (f : List Nat) (metaResult : Except String Metadata) : OpenResult :=
  match bytesAt f 0 12 with
  | none => .diverged
  | some hb =>
    let header := decodeWadInfo hb
    match wad_type_from_info header with
    | none => .error invalidWadMsg
    | some _ =>
      match buildLoop f header.info_table_offset 0 header.num_lumps initialState with
      | .panicked => .panicked
      | .diverged => .diverged
      | .ok st pos =>
        match metaResult with
        | .error e => .error e
        | .ok mv => .ok ⟨pos, st.index_map, st.lumps, st.levels, mv⟩

/-- Archive::get_lump_index: name map lookup. -/
def get_lump_index (a : Archive) (n : WadName) : Option Nat := mGet a.index_map n

/-- Archive::get_lump_name (out-of-range positions panic in the source;
the model is total via a default and claims only use in-range positions). -/
def get_lump_name (a : Archive) (k : Nat) : WadName := (a.lumps.getD k dummyInfo).name

/-- Archive::get_level_name: the name of the lump at the k-th level marker. -/
def get_level_name (a : Archive) (k : Nat) : WadName := get_lump_name a (a.levels.getD k 0)

/-- Archive::is_virtual_lump: a zero-length entry. -/
def is_virtual_lump (a : Archive) (k : Nat) : Bool := (a.lumps.getD k dummyInfo).size = 0

/-- The bytes of a typed sequence read split into records of t bytes each
(n of them): the field-by-field reading of the reinterpreted buffer. -/
def chunksN : Nat → Nat → List Nat → List (List Nat)
  | 0, _, _ => []
  | n + 1, t, b => b.take t :: chunksN n t (b.drop t)

/-- Outcome of read_lump.  The sizeError constructor is the recoverable
typed error the specification posits for size mismatches; the source
function returns a plain Vec with no error path, so no code path below
produces it — it exists so that "fails with a size error" is a statable
proposition about this model. -/
inductive ReadLumpResult where
  | ok (records : List (List Nat))
  | sizeError (len elemSize : Nat)
  | panicked
  | diverged
deriving DecidableEq

/-- Archive::read_lump with t = size_of::<T>(): index the catalog, assert
size > 0 and size % t == 0 (both asserts abort on failure), seek to the
entry's offset, read size bytes and reinterpret them as size / t records.
A read past end-of-stream diverges (read_at_least at end-of-stream). -/
def read_lump (f : List Nat) (a : Archive) (index t : Nat) : ReadLumpResult × Archive :=
  match a.lumps.get? index with
  | none => (.panicked, a)
  | some info =>
    if info.size = 0 then (.panicked, a)
    else if info.size % t ≠ 0 then (.panicked, a)
    else
      match bytesAt f info.offset info.size with
      | none => (.diverged, { a with pos := info.offset })
      | some bs => (.ok (chunksN (info.size / t) t bs), { a with pos := info.offset + info.size })

/-- Outcome of read_lump_single; as with ReadLumpResult, the sizeError
constructor is the specification's posited recoverable error and is never
produced by the code path. -/
inductive ReadSingleResult where
  | ok (record : List Nat)
  | sizeError (expected actual : Nat)
  | panicked
  | diverged
deriving DecidableEq

/-- Archive::read_lump_single with t = size_of::<T>(): index the catalog,
assert size == t (abort on failure), seek and decode one record. -/
def read_lump_single (f : List Nat) (a : Archive) (index t : Nat) : ReadSingleResult × Archive :=
  match a.lumps.get? index with
  | none => (.panicked, a)
  | some info =>
    if info.size ≠ t then (.panicked, a)
    else
      match bytesAt f info.offset t with
      | none => (.diverged, { a with pos := info.offset })
      | some b => (.ok b, { a with pos := info.offset + t })

/-- One underlying Read::read call's outcome: n bytes delivered into the
buffer (0 at end-of-stream), or an I/O error. -/
inductive ReadOutcome where
  | bytes (n : Nat)
  | ioError
deriving DecidableEq

/-- Outcome of ReadExt::read_at_least over a finite trace of underlying
read outcomes: Ok(()) with the unconsumed trace and the total bytes
written, a propagated I/O error, the abort of slicing buf with an
out-of-range start, or the trace running out before the call returned
(at end-of-stream the source keeps recursing on 0-byte reads, so on an
everywhere-0 trace the call never returns: see eof_read_never_returns). -/
inductive RALResult where
  | ok (rest : List ReadOutcome) (filled : Nat)
  | ioError
  | panicked
  | pending
deriving DecidableEq

/-- ReadExt::read_at_least (base/lib.rs lines 11-15): an empty buffer
returns Ok(()) at once without reading; otherwise one underlying read is
performed and the function recurses on the unfilled tail of the buffer. -/
def read_at_least : List ReadOutcome → Nat → RALResult
  | s, 0 => .ok s 0
  | [], _ + 1 => .pending
  | .ioError :: _, _ + 1 => .ioError
  | .bytes n :: rest, m + 1 =>
    if n ≤ m + 1 then
      match read_at_least rest (m + 1 - n) with
      | .ok r fl => .ok r (fl + n)
      | .ioError => .ioError
      | .panicked => .panicked
      | .pending => .pending
    else .panicked

/-- Position of the last entry whose normalized name is n, in a list of
entries whose first element sits at directory position i (the
specification-side description of last-wins lookup). -/
def lastIdx (i : Nat) (n : WadName) : List WadLump → Option Nat
  | [] => none
  | e :: rest =>
    match lastIdx (i + 1) n rest with
    | some p => some p
    | none => if canonicalise e.name = n then some i else none

/-- The level markers contributed by a list of entries whose first element
sits at directory position i: position minus one for each sentinel-named
entry, in order, without deduplication. -/
def sentinelMarkers (i : Nat) : List WadLump → List Nat
  | [] => []
  | e :: rest =>
    if canonicalise e.name = sentinelName then (i - 1) :: sentinelMarkers (i + 1) rest
    else sentinelMarkers (i + 1) rest

/-! Concrete inputs used by witnesses and counterexamples. -/

/-- A successfully loaded metadata object. -/
def exM : Except String Metadata := .ok 7

/-- A wellformed container: primary magic, 3 entries at offset 12, where
entries 0 and 2 share the name AAAAAAAA and entry 1 is named BBBBBBBB;
12 payload bytes follow the directory. -/
def exF : List Nat :=
  [73, 87, 65, 68, 3, 0, 0, 0, 12, 0, 0, 0]
  ++ ([60, 0, 0, 0, 4, 0, 0, 0] ++ [65, 65, 65, 65, 65, 65, 65, 65])
  ++ ([64, 0, 0, 0, 8, 0, 0, 0] ++ [66, 66, 66, 66, 66, 66, 66, 66])
  ++ ([60, 0, 0, 0, 4, 0, 0, 0] ++ [65, 65, 65, 65, 65, 65, 65, 65])
  ++ [1, 2, 3, 4, 5, 6, 7, 8, 9, 10, 11, 12]

/-- The archive produced by opening exF. -/
def exA : Archive :=
  ⟨60,
   [([65, 65, 65, 65, 65, 65, 65, 65], 2), ([66, 66, 66, 66, 66, 66, 66, 66], 1),
    ([65, 65, 65, 65, 65, 65, 65, 65], 0)],
   [⟨[65, 65, 65, 65, 65, 65, 65, 65], 60, 4⟩, ⟨[66, 66, 66, 66, 66, 66, 66, 66], 64, 8⟩,
    ⟨[65, 65, 65, 65, 65, 65, 65, 65], 60, 4⟩],
   [], 7⟩

/-- A container whose single directory entry, at position 0, carries the
sentinel name THINGS. -/
def exF2 : List Nat :=
  [73, 87, 65, 68, 1, 0, 0, 0, 12, 0, 0, 0]
  ++ ([0, 0, 0, 0, 0, 0, 0, 0] ++ [84, 72, 73, 78, 71, 83, 0, 0])

/-- A one-level container: E1M1 (virtual), THINGS, LINEDEFS. -/
def exF3 : List Nat :=
  [73, 87, 65, 68, 3, 0, 0, 0, 12, 0, 0, 0]
  ++ ([0, 0, 0, 0, 0, 0, 0, 0] ++ [69, 49, 77, 49, 0, 0, 0, 0])
  ++ ([0, 0, 0, 0, 0, 0, 0, 0] ++ [84, 72, 73, 78, 71, 83, 0, 0])
  ++ ([0, 0, 0, 0, 0, 0, 0, 0] ++ [76, 73, 78, 69, 68, 69, 70, 83])

/-- The archive produced by opening exF3: one level marker at position 0. -/
def exA3 : Archive :=
  ⟨60,
   [([76, 73, 78, 69, 68, 69, 70, 83], 2), ([84, 72, 73, 78, 71, 83, 0, 0], 1),
    ([69, 49, 77, 49, 0, 0, 0, 0], 0)],
   [⟨[69, 49, 77, 49, 0, 0, 0, 0], 0, 0⟩, ⟨[84, 72, 73, 78, 71, 83, 0, 0], 0, 0⟩,
    ⟨[76, 73, 78, 69, 68, 69, 70, 83], 0, 0⟩],
   [0], 7⟩

/-- A container with a virtual (length 0) entry MARKER at position 0 and an
8-byte entry DATA at position 1 whose payload sits at offset 44. -/
def exF4 : List Nat :=
  [73, 87, 65, 68, 2, 0, 0, 0, 12, 0, 0, 0]
  ++ ([0, 0, 0, 0, 0, 0, 0, 0] ++ [77, 65, 82, 75, 69, 82, 0, 0])
  ++ ([44, 0, 0, 0, 8, 0, 0, 0] ++ [68, 65, 84, 65, 0, 0, 0, 0])
  ++ [10, 20, 30, 40, 50, 60, 70, 80]

/-- The archive produced by opening exF4. -/
def exA4 : Archive :=
  ⟨44,
   [([68, 65, 84, 65, 0, 0, 0, 0], 1), ([77, 65, 82, 75, 69, 82, 0, 0], 0)],
   [⟨[77, 65, 82, 75, 69, 82, 0, 0], 0, 0⟩, ⟨[68, 65, 84, 65, 0, 0, 0, 0], 44, 8⟩],
   [], 7⟩

/-- Twelve zero bytes: a full header whose magic matches no variant. -/
def exF6 : List Nat := [0, 0, 0, 0, 0, 0, 0, 0, 0, 0, 0, 0]

/-- A container whose header announces one directory entry at offset 12
but whose stream ends right after the header. -/
def exF7 : List Nat := [73, 87, 65, 68, 1, 0, 0, 0, 12, 0, 0, 0]

/-! Basic facts about the byte-level primitives. -/

theorem bytesAt_of_le {f : List Nat} {p n : Nat} (h : p + n ≤ f.length) :
    bytesAt f p n = some (sliceBytes f p n) := by
  simp [bytesAt, h]

theorem bytesAt_eq_some {f : List Nat} {p n : Nat} {b : List Nat}
    (h : bytesAt f p n = some b) : p + n ≤ f.length ∧ b = sliceBytes f p n := by
  by_cases hle : p + n ≤ f.length
  · rw [bytesAt_of_le hle] at h
    exact ⟨hle, (Option.some_inj.mp h).symm⟩
  · simp [bytesAt, hle] at h

theorem chunksN_length (t : Nat) : ∀ (n : Nat) (b : List Nat), (chunksN n t b).length = n := by
  intro n
  induction n with
  | zero => intro b; rfl
  | succ m ih => intro b; simp [chunksN, ih]

theorem getD_map {α β : Type} (g : α → β) (d0 : α) :
    ∀ (l : List α) (k : Nat), k < l.length → (l.map g).getD k (g d0) = g (l.getD k d0) := by
  intro l
  induction l with
  | nil => intro k hk; simp at hk
  | cons x xs ih =>
    intro k hk
    cases k with
    | zero => rfl
    | succ k' =>
      simp only [List.map_cons, List.getD_cons_succ]
      exact ih k' (by simpa using Nat.lt_of_succ_lt_succ hk)

theorem sliceBytes_length {f : List Nat} {p n : Nat} (h : p + n ≤ f.length) :
    (sliceBytes f p n).length = n := by
  simp [sliceBytes]
  omega

theorem getD_mem' {α : Type} : ∀ (l : List α) (k : Nat) (d : α), k < l.length → l.getD k d ∈ l := by
  intro l
  induction l with
  | nil => intro k d hk; simp at hk
  | cons x xs ih =>
    intro k d hk
    cases k with
    | zero => simp
    | succ k' =>
      rw [List.getD_cons_succ]
      exact List.mem_cons_of_mem x (ih k' d (by simpa using Nat.lt_of_succ_lt_succ hk))

theorem dirEntries_length (f : List Nat) : ∀ (r pos : Nat), (dirEntries f pos r).length = r := by
  intro r
  induction r with
  | zero => intro pos; rfl
  | succ r' ih => intro pos; simp [dirEntries, ih]

/-! Characterization of the catalog-building loop over decoded entries. -/

theorem buildCatalog_lumps :
    ∀ (es : List WadLump) (st : BuildState) (i : Nat) (st2 : BuildState),
      buildCatalog st i es = .ok st2 → st2.lumps = st.lumps ++ es.map decodeEntry := by
  intro es
  induction es with
  | nil =>
    intro st i st2 h
    injection h with h1
    rw [← h1]
    simp
  | cons e rest ih =>
    intro st i st2 h
    simp only [buildCatalog] at h
    by_cases hs : canonicalise e.name = sentinelName
    · rw [if_pos hs] at h
      by_cases hi : i = 0
      · rw [if_pos hi] at h; cases h
      · rw [if_neg hi] at h
        have hr := ih _ _ _ h
        simp only [hr]
        simp [decodeEntry]
    · rw [if_neg hs] at h
      have hr := ih _ _ _ h
      simp only [hr]
      simp [decodeEntry]

theorem buildCatalog_mGet :
    ∀ (es : List WadLump) (st : BuildState) (i : Nat) (st2 : BuildState),
      st.lumps.length = i → buildCatalog st i es = .ok st2 →
      ∀ n, mGet st2.index_map n =
        (match lastIdx i n es with
         | some p => some p
         | none => mGet st.index_map n) := by
  intro es
  induction es with
  | nil =>
    intro st i st2 _ h n
    injection h with h1
    rw [← h1]
    rfl
  | cons e rest ih =>
    intro st i st2 hlen h n
    simp only [buildCatalog] at h
    by_cases hs : canonicalise e.name = sentinelName
    · rw [if_pos hs] at h
      by_cases hi : i = 0
      · rw [if_pos hi] at h; cases h
      · rw [if_neg hi] at h
        have hr := ih _ _ _ (by simp [hlen]) h n
        rw [hlen] at hr
        rw [hr]
        cases hL : lastIdx (i + 1) n rest with
        | some p => simp [lastIdx, hL]
        | none =>
          by_cases hn : canonicalise e.name = n
          · simp [lastIdx, hL, hn, mGet]
          · simp [lastIdx, hL, hn, mGet]
    · rw [if_neg hs] at h
      have hr := ih _ _ _ (by simp [hlen]) h n
      rw [hlen] at hr
      rw [hr]
      cases hL : lastIdx (i + 1) n rest with
      | some p => simp [lastIdx, hL]
      | none =>
        by_cases hn : canonicalise e.name = n
        · simp [lastIdx, hL, hn, mGet]
        · simp [lastIdx, hL, hn, mGet]

theorem buildCatalog_levels :
    ∀ (es : List WadLump) (st : BuildState) (i : Nat) (st2 : BuildState),
      buildCatalog st i es = .ok st2 → st2.levels = st.levels ++ sentinelMarkers i es := by
  intro es
  induction es with
  | nil =>
    intro st i st2 h
    injection h with h1
    rw [← h1]
    simp [sentinelMarkers]
  | cons e rest ih =>
    intro st i st2 h
    simp only [buildCatalog] at h
    by_cases hs : canonicalise e.name = sentinelName
    · rw [if_pos hs] at h
      by_cases hi : i = 0
      · rw [if_pos hi] at h; cases h
      · rw [if_neg hi] at h
        have hr := ih _ _ _ h
        simp only [hr]
        simp [sentinelMarkers, hs]
    · rw [if_neg hs] at h
      have hr := ih _ _ _ h
      simp only [hr]
      simp [sentinelMarkers, hs]

theorem buildCatalog_ok_head {e : WadLump} {rest : List WadLump} {st st2 : BuildState}
    (h : buildCatalog st 0 (e :: rest) = .ok st2) : canonicalise e.name ≠ sentinelName := by
  intro hs
  simp only [buildCatalog, if_pos hs, if_pos rfl] at h
  cases h

/-! Characterization of last-wins lookup positions. -/

theorem lastIdx_bounds :
    ∀ (es : List WadLump) (i : Nat) (n : WadName) (p : Nat), lastIdx i n es = some p →
      i ≤ p ∧ p - i < es.length ∧ canonicalise ((es.getD (p - i) dummyLump)).name = n := by
  intro es
  induction es with
  | nil => intro i n p h; simp [lastIdx] at h
  | cons e rest ih =>
    intro i n p h
    simp only [lastIdx] at h
    cases hL : lastIdx (i + 1) n rest with
    | some q =>
      rw [hL] at h
      injection h with h1
      subst h1
      obtain ⟨hq1, hq2, hq3⟩ := ih (i + 1) n q hL
      refine ⟨by omega, by simp; omega, ?_⟩
      have hpi : q - i = (q - (i + 1)) + 1 := by omega
      rw [hpi, List.getD_cons_succ]
      exact hq3
    | none =>
      rw [hL] at h
      by_cases hn : canonicalise e.name = n
      · rw [if_pos hn] at h
        injection h with h1
        subst h1
        refine ⟨Nat.le_refl i, by simp, ?_⟩
        simp [hn]
      · rw [if_neg hn] at h
        cases h

theorem lastIdx_ge :
    ∀ (es : List WadLump) (i : Nat) (n : WadName) (q : Nat), q < es.length →
      canonicalise ((es.getD q dummyLump)).name = n →
      ∃ p, lastIdx i n es = some p ∧ i + q ≤ p := by
  intro es
  induction es with
  | nil => intro i n q hq _; simp at hq
  | cons e rest ih =>
    intro i n q hq hname
    cases q with
    | zero =>
      cases hL : lastIdx (i + 1) n rest with
      | some p =>
        refine ⟨p, by simp [lastIdx, hL], ?_⟩
        have := (lastIdx_bounds rest (i + 1) n p hL).1
        omega
      | none =>
        refine ⟨i, ?_, by omega⟩
        simp only [List.getD_cons_zero] at hname
        simp [lastIdx, hL, hname]
    | succ q' =>
      rw [List.getD_cons_succ] at hname
      have hq' : q' < rest.length := by simpa using Nat.lt_of_succ_lt_succ hq
      obtain ⟨p, hp, hge⟩ := ih (i + 1) n q' hq' hname
      refine ⟨p, by simp [lastIdx, hp], by omega⟩


/-! Characterization of the level markers as a positional filter. -/

theorem sentinelMarkers_cons (i : Nat) (e : WadLump) (rest : List WadLump) :
    sentinelMarkers i (e :: rest) =
      if canonicalise e.name = sentinelName then (i - 1) :: sentinelMarkers (i + 1) rest
      else sentinelMarkers (i + 1) rest := rfl

theorem sentinelMarkers_eq_filter :
    ∀ (es : List WadLump) (i : Nat), 1 ≤ i →
      sentinelMarkers i es =
        ((List.range' i es.length).filter
          (fun p => decide (0 < p ∧
            canonicalise ((es.getD (p - i) dummyLump)).name = sentinelName))).map
          (fun p => p - 1) := by
  intro es
  induction es with
  | nil => intro i _; simp [sentinelMarkers]
  | cons e rest ih =>
    intro i hi
    have hfc :
        (List.range' (i + 1) rest.length).filter
          (fun p => decide (0 < p ∧
            canonicalise (((e :: rest).getD (p - i) dummyLump)).name = sentinelName)) =
        (List.range' (i + 1) rest.length).filter
          (fun p => decide (0 < p ∧
            canonicalise ((rest.getD (p - (i + 1)) dummyLump)).name = sentinelName)) := by
      apply List.filter_congr
      intro x hxm
      have hxb := List.mem_range'_1.mp hxm
      have hxi : x - i = (x - (i + 1)) + 1 := by omega
      simp only [hxi, List.getD_cons_succ]
    have hrange : List.range' i (e :: rest).length = i :: List.range' (i + 1) rest.length :=
      List.range'_succ i rest.length 1
    rw [sentinelMarkers_cons, hrange, List.filter_cons]
    by_cases hs : canonicalise e.name = sentinelName
    · rw [if_pos hs]
      have hcond : (0 < i ∧
          canonicalise (((e :: rest).getD (i - i) dummyLump)).name = sentinelName) := by
        simp only [Nat.sub_self, List.getD_cons_zero]
        exact ⟨by omega, hs⟩
      rw [if_pos (by exact decide_eq_true hcond), List.map_cons, hfc, ih (i + 1) (by omega)]
    · rw [if_neg hs]
      have hcond : ¬ (0 < i ∧
          canonicalise (((e :: rest).getD (i - i) dummyLump)).name = sentinelName) := by
        simp only [Nat.sub_self, List.getD_cons_zero]
        exact fun hc => hs hc.2
      rw [if_neg (by simpa using hcond), hfc, ih (i + 1) (by omega)]

theorem buildLoop_succ_eq (f : List Nat) (pos i r : Nat) (st : BuildState) :
    buildLoop f pos i (r + 1) st =
      match bytesAt f pos 16 with
      | none => .diverged
      | some eb =>
        let e := decodeWadLump eb
        let nm := canonicalise e.name
        let lumps2 := st.lumps ++ [⟨nm, e.file_pos, e.size⟩]
        let imap2 := (nm, st.lumps.length) :: st.index_map
        if nm = sentinelName then
          if i = 0 then .panicked
          else buildLoop f (pos + 16) (i + 1) r ⟨lumps2, imap2, st.levels ++ [i - 1]⟩
        else buildLoop f (pos + 16) (i + 1) r ⟨lumps2, imap2, st.levels⟩ := rfl

theorem buildLoop_ok (f : List Nat) :
    ∀ (r pos i : Nat) (st st2 : BuildState) (pos2 : Nat),
      buildLoop f pos i r st = .ok st2 pos2 →
      buildCatalog st i (dirEntries f pos r) = .ok st2 ∧ pos2 = pos + 16 * r := by
  intro r
  induction r with
  | zero =>
    intro pos i st st2 pos2 h
    injection h with h1 h2
    rw [← h1, ← h2]
    exact ⟨rfl, by omega⟩
  | succ r' ih =>
    intro pos i st st2 pos2 h
    rw [buildLoop_succ_eq] at h
    split at h
    · cases h
    · rename_i eb hb
      obtain ⟨hle, hsl⟩ := bytesAt_eq_some hb
      subst hsl
      show buildCatalog st i
        (decodeWadLump (sliceBytes f pos 16) :: dirEntries f (pos + 16) r') = .ok st2 ∧ _
      simp only [buildCatalog]
      simp only at h
      by_cases hs : canonicalise (decodeWadLump (sliceBytes f pos 16)).name = sentinelName
      · rw [if_pos hs] at h ⊢
        by_cases hi : i = 0
        · rw [if_pos hi] at h; cases h
        · rw [if_neg hi] at h ⊢
          obtain ⟨hc, hp⟩ := ih _ _ _ _ _ h
          exact ⟨hc, by omega⟩
      · rw [if_neg hs] at h ⊢
        obtain ⟨hc, hp⟩ := ih _ _ _ _ _ h
        exact ⟨hc, by omega⟩

theorem buildLoop_ok_le (f : List Nat) :
    ∀ (r pos i : Nat) (st st2 : BuildState) (pos2 : Nat),
      buildLoop f pos i (r + 1) st = .ok st2 pos2 → pos + 16 * (r + 1) ≤ f.length := by
  intro r
  induction r with
  | zero =>
    intro pos i st st2 pos2 h
    rw [buildLoop_succ_eq] at h
    split at h
    · cases h
    · rename_i eb hb
      obtain ⟨hle, _⟩ := bytesAt_eq_some hb
      omega
  | succ r' ih =>
    intro pos i st st2 pos2 h
    rw [buildLoop_succ_eq] at h
    split at h
    · cases h
    · rename_i eb hb
      obtain ⟨hle, _⟩ := bytesAt_eq_some hb
      simp only at h
      split at h
      · split at h
        · cases h
        · have := ih _ _ _ _ _ h
          omega
      · have := ih _ _ _ _ _ h
        omega

theorem buildLoop_truncated (f : List Nat) (r pos i : Nat) (st : BuildState)
    (htr : f.length < pos + 16 * (r + 1)) :
    buildLoop f pos i (r + 1) st = .panicked ∨ buildLoop f pos i (r + 1) st = .diverged := by
  cases hres : buildLoop f pos i (r + 1) st with
  | ok st2 pos2 =>
    have := buildLoop_ok_le f r pos i st st2 pos2 hres
    omega
  | panicked => left; rfl
  | diverged => right; rfl

theorem openWad_ok {f : List Nat} {m : Except String Metadata} {a : Archive}
    (h : openWad f m = .ok a) :
    12 ≤ f.length ∧
    (wad_type_from_info (fileHeader f)).isSome = true ∧
    (∃ st, buildCatalog initialState 0 (fileEntries f) = .ok st ∧
      a.index_map = st.index_map ∧ a.lumps = st.lumps ∧ a.levels = st.levels) ∧
    a.pos = (fileHeader f).info_table_offset + 16 * (fileHeader f).num_lumps ∧
    m = .ok a.meta := by
  simp only [openWad] at h
  split at h
  · cases h
  · rename_i hb' hb
    obtain ⟨hle, hsl⟩ := bytesAt_eq_some hb
    subst hsl
    split at h
    · cases h
    · rename_i t hw
      split at h
      · cases h
      · cases h
      · rename_i st pos hl
        obtain ⟨hc, hp⟩ := buildLoop_ok f _ _ _ _ _ _ hl
        cases m with
        | error e => cases h
        | ok mv =>
          injection h with h1
          subst h1
          refine ⟨by omega, ?_, ⟨st, hc, rfl, rfl, rfl⟩, by rw [hp]; rfl, rfl⟩
          rw [show decodeWadInfo (sliceBytes f 0 12) = fileHeader f from rfl] at hw
          rw [hw]
          rfl

/-! Facts about the read primitive (base/lib.rs). -/

theorem ral_ok_filled :
    ∀ (s : List ReadOutcome) (n : Nat) (rest : List ReadOutcome) (fl : Nat),
      read_at_least s n = .ok rest fl → fl = n := by
  intro s
  induction s with
  | nil =>
    intro n rest fl h
    cases n with
    | zero => simp [read_at_least] at h; omega
    | succ m => simp [read_at_least] at h
  | cons o s' ih =>
    intro n rest fl h
    cases n with
    | zero => simp [read_at_least] at h; omega
    | succ m =>
      cases o with
      | ioError => simp [read_at_least] at h
      | bytes k =>
        simp only [read_at_least] at h
        by_cases hk : k ≤ m + 1
        · rw [if_pos hk] at h
          cases hr : read_at_least s' (m + 1 - k) with
          | ok r fl' =>
            rw [hr] at h
            injection h with h1 h2
            have := ih (m + 1 - k) r fl' hr
            omega
          | ioError => rw [hr] at h; cases h
          | panicked => rw [hr] at h; cases h
          | pending => rw [hr] at h; cases h
        · rw [if_neg hk] at h
          cases h

/-- At end-of-stream the underlying read keeps delivering 0 bytes; however
long such a trace, read_at_least on a non-empty buffer has not returned by
its end — the source recursion never terminates there. -/
theorem eof_read_never_returns :
    ∀ (k n : Nat), 0 < n →
      read_at_least (List.replicate k (ReadOutcome.bytes 0)) n = .pending := by
  intro k
  induction k with
  | zero =>
    intro n hn
    cases n with
    | zero => omega
    | succ m => simp [read_at_least]
  | succ k' ih =>
    intro n hn
    cases n with
    | zero => omega
    | succ m =>
      simp only [List.replicate, read_at_least]
      rw [if_pos (Nat.zero_le (m + 1))]
      rw [ih (m + 1 - 0) (by omega)]


/-! Further helpers for the claim proofs. -/

theorem getD_map_in {α β : Type} (g : α → β) (d : β) (d0 : α) :
    ∀ (l : List α) (k : Nat), k < l.length → (l.map g).getD k d = g (l.getD k d0) := by
  intro l
  induction l with
  | nil => intro k hk; simp at hk
  | cons x xs ih =>
    intro k hk
    cases k with
    | zero => rfl
    | succ k' =>
      simp only [List.map_cons, List.getD_cons_succ]
      exact ih k' (by simpa using Nat.lt_of_succ_lt_succ hk)

theorem openWad_unfold (f : List Nat) (m : Except String Metadata) (hlen : 12 ≤ f.length) :
    openWad f m =
      match wad_type_from_info (fileHeader f) with
      | none => .error invalidWadMsg
      | some _ =>
        match buildLoop f (fileHeader f).info_table_offset 0 (fileHeader f).num_lumps
            initialState with
        | .panicked => .panicked
        | .diverged => .diverged
        | .ok st pos =>
          match m with
          | .error e => .error e
          | .ok mv => .ok ⟨pos, st.index_map, st.lumps, st.levels, mv⟩ := by
  simp only [openWad, bytesAt_of_le (show 0 + 12 ≤ f.length by omega)]
  rfl

/-! Claims. -/

/-- C2 (amended): a sentinel-named entry at directory position 0 makes open
abort via the assertion assert!(i_lump > 0); no Archive and no error value
is returned. -/
theorem c2_sentinel_at_zero_panics (f : List Nat) (m : Except String Metadata)
    (hlen : 12 ≤ f.length)
    (hmagic : (wad_type_from_info (fileHeader f)).isSome = true)
    (hnum : 1 ≤ (fileHeader f).num_lumps)
    (hent : (fileHeader f).info_table_offset + 16 ≤ f.length)
    (hsent : canonicalise (((fileEntries f).getD 0 dummyLump)).name = sentinelName) :
    openWad f m = .panicked := by
  obtain ⟨t, ht⟩ := Option.isSome_iff_exists.mp hmagic
  obtain ⟨n, hn⟩ : ∃ n, (fileHeader f).num_lumps = n + 1 :=
    ⟨(fileHeader f).num_lumps - 1, by omega⟩
  have hs0 : canonicalise
      (decodeWadLump (sliceBytes f (fileHeader f).info_table_offset 16)).name = sentinelName := by
    have h0 := hsent
    rw [fileEntries, hn] at h0
    simpa [dirEntries] using h0
  have hloop : buildLoop f (fileHeader f).info_table_offset 0 (fileHeader f).num_lumps
      initialState = .panicked := by
    rw [hn, buildLoop_succ_eq, bytesAt_of_le hent]
    simp [hs0]
  rw [openWad_unfold f m hlen]
  simp only [ht, hloop]

/-- C2 counterexample to the claim as stated: on a concrete container whose
entry 0 is sentinel-named, open panics; it does not return the posited
level-grouping error value (nor any error value), and returns no Archive. -/
theorem c2_cx_panic_not_error :
    openWad exF2 exM = .panicked ∧ (∀ s, openWad exF2 exM ≠ .error s) ∧
    (∀ a, openWad exF2 exM ≠ .ok a) := by
  have he : openWad exF2 exM = .panicked := by decide
  refine ⟨he, ?_, ?_⟩
  · intro s h; rw [he] at h; exact OpenResult.noConfusion h
  · intro a h; rw [he] at h; exact OpenResult.noConfusion h

/-- C2 witness: the amended claim at the concrete container exF2. -/
theorem c2_witness :
    (12 ≤ exF2.length ∧ (wad_type_from_info (fileHeader exF2)).isSome = true ∧
     1 ≤ (fileHeader exF2).num_lumps ∧ (fileHeader exF2).info_table_offset + 16 ≤ exF2.length ∧
     canonicalise (((fileEntries exF2).getD 0 dummyLump)).name = sentinelName) ∧
    openWad exF2 exM = .panicked :=
  ⟨⟨by decide, by decide, by decide, by decide, by decide⟩,
   c2_sentinel_at_zero_panics exF2 exM (by decide) (by decide) (by decide) (by decide) (by decide)⟩

/-- C6: a readable header whose 4-byte magic matches neither recognized
variant makes open fail with the unrecognized-magic error value, and the
caller receives no Archive. -/
theorem c6_unrecognized_magic (f : List Nat) (m : Except String Metadata)
    (hlen : 12 ≤ f.length)
    (hmagic : wad_type_from_info (fileHeader f) = none) :
    openWad f m = .error invalidWadMsg ∧ ∀ a, openWad f m ≠ .ok a := by
  have h1 : openWad f m = .error invalidWadMsg := by
    rw [openWad_unfold f m hlen]
    simp only [hmagic]
  exact ⟨h1, fun a h => by rw [h1] at h; exact OpenResult.noConfusion h⟩

/-- C6 witness: the claim at a concrete all-zero header. -/
theorem c6_witness :
    (12 ≤ exF6.length ∧ wad_type_from_info (fileHeader exF6) = none) ∧
    (openWad exF6 exM = .error invalidWadMsg ∧ ∀ a, openWad exF6 exM ≠ .ok a) :=
  ⟨⟨by decide, by decide⟩, c6_unrecognized_magic exF6 exM (by decide) (by decide)⟩

/-- C7 (amended): when the stream is truncated before all announced
directory entries can be read, open never returns a value at all — it
either aborts on an assertion hit first, or the final read loops forever
at end-of-stream; in particular no I/O error value is returned. -/
theorem c7_truncated_never_returns (f : List Nat) (m : Except String Metadata)
    (hlen : 12 ≤ f.length)
    (hmagic : (wad_type_from_info (fileHeader f)).isSome = true)
    (hnum : 1 ≤ (fileHeader f).num_lumps)
    (htr : f.length < (fileHeader f).info_table_offset + 16 * (fileHeader f).num_lumps) :
    openWad f m = .panicked ∨ openWad f m = .diverged := by
  obtain ⟨t, ht⟩ := Option.isSome_iff_exists.mp hmagic
  obtain ⟨n, hn⟩ : ∃ n, (fileHeader f).num_lumps = n + 1 :=
    ⟨(fileHeader f).num_lumps - 1, by omega⟩
  have hloop := buildLoop_truncated f n (fileHeader f).info_table_offset 0 initialState
    (by omega)
  rw [openWad_unfold f m hlen]
  simp only [ht, hn]
  rcases hloop with hp | hd
  · left; simp only [hp]
  · right; simp only [hd]

/-- C7 counterexample to the claim as stated: a concrete container whose
header announces one entry but whose stream ends after the header makes
open diverge (the end-of-stream read recursion never returns); no I/O
error value is returned. -/
theorem c7_cx_diverges_not_error :
    openWad exF7 exM = .diverged ∧ (∀ s, openWad exF7 exM ≠ .error s) ∧
    (∀ a, openWad exF7 exM ≠ .ok a) := by
  have he : openWad exF7 exM = .diverged := by decide
  refine ⟨he, ?_, ?_⟩
  · intro s h; rw [he] at h; exact OpenResult.noConfusion h
  · intro a h; rw [he] at h; exact OpenResult.noConfusion h

/-- C7 witness: the amended claim at the concrete truncated container. -/
theorem c7_witness :
    (12 ≤ exF7.length ∧ (wad_type_from_info (fileHeader exF7)).isSome = true ∧
     1 ≤ (fileHeader exF7).num_lumps ∧
     exF7.length < (fileHeader exF7).info_table_offset + 16 * (fileHeader exF7).num_lumps) ∧
    (openWad exF7 exM = .panicked ∨ openWad exF7 exM = .diverged) :=
  ⟨⟨by decide, by decide, by decide, by decide⟩,
   c7_truncated_never_returns exF7 exM (by decide) (by decide) (by decide) (by decide)⟩

/-- C8 (amended): whenever open returns an Archive at all, that Archive is
fully built — its catalog is the decode of the complete announced
directory, its cursor sits right after the last directory entry, and the
metadata result was successful and is bound; failures yield no Archive,
but abort or diverge rather than always returning an error value. -/
theorem c8_open_atomic (f : List Nat) (m : Except String Metadata) (a : Archive)
    (hopen : openWad f m = .ok a) :
    a.lumps = (fileEntries f).map decodeEntry ∧
    a.lumps.length = (fileHeader f).num_lumps ∧
    a.pos = (fileHeader f).info_table_offset + 16 * (fileHeader f).num_lumps ∧
    m = .ok a.meta ∧
    12 ≤ f.length ∧ (wad_type_from_info (fileHeader f)).isSome = true := by
  obtain ⟨hlen, hmag, ⟨st, hc, him, hlu, hlv⟩, hpos, hm⟩ := openWad_ok hopen
  have hl := buildCatalog_lumps (fileEntries f) initialState 0 st hc
  have hlumps : a.lumps = (fileEntries f).map decodeEntry := by
    rw [hlu, hl]
    rfl
  refine ⟨hlumps, ?_, hpos, hm, hlen, hmag⟩
  rw [hlumps, List.length_map, fileEntries, dirEntries_length]

/-- C8 counterexample to the claim as stated: opening an empty stream is a
failure that does not return an error value — the header read diverges at
end-of-stream — so "any failure returns an error value" is false. -/
theorem c8_cx_failure_without_error :
    openWad [] exM = .diverged ∧ (∀ s, openWad [] exM ≠ .error s) ∧
    (∀ a, openWad [] exM ≠ .ok a) := by
  have he : openWad [] exM = .diverged := by decide
  refine ⟨he, ?_, ?_⟩
  · intro s h; rw [he] at h; exact OpenResult.noConfusion h
  · intro a h; rw [he] at h; exact OpenResult.noConfusion h

/-- C8 witness: the amended claim at the concrete wellformed container exF. -/
theorem c8_witness :
    openWad exF exM = .ok exA ∧
    (exA.lumps = (fileEntries exF).map decodeEntry ∧
     exA.lumps.length = (fileHeader exF).num_lumps ∧
     exA.pos = (fileHeader exF).info_table_offset + 16 * (fileHeader exF).num_lumps ∧
     exM = .ok exA.meta ∧
     12 ≤ exF.length ∧ (wad_type_from_info (fileHeader exF)).isSome = true) :=
  ⟨by decide, c8_open_atomic exF exM exA (by decide)⟩

/-- C4 (amended): in an opened archive, a typed sequence read at an
in-range position aborts via assertion (not a recoverable size error) when
the entry's length is 0 — in particular on every virtual lump — or not a
multiple of the element size; when the length is positive, aligned, and
the entry's byte range lies within the file, it succeeds with exactly
length / element-size records. -/
theorem c4_read_sequence_size (f : List Nat) (m : Except String Metadata) (a : Archive)
    (i t : Nat) (info : LumpInfo)
    (_hopen : openWad f m = .ok a)
    (hi : a.lumps.get? i = some info) (_ht : 0 < t) :
    ((info.size = 0 ∨ info.size % t ≠ 0) → (read_lump f a i t).1 = .panicked) ∧
    (info.size ≠ 0 → info.size % t = 0 → info.offset + info.size ≤ f.length →
      ∃ recs, (read_lump f a i t).1 = .ok recs ∧ recs.length = info.size / t) := by
  constructor
  · intro hbad
    simp only [read_lump, hi]
    rcases hbad with h0 | hmod
    · rw [if_pos h0]
    · by_cases h0 : info.size = 0
      · rw [if_pos h0]
      · rw [if_neg h0, if_pos hmod]
  · intro h0 hmod hle
    simp only [read_lump, hi]
    rw [if_neg h0, if_neg (fun hc => hc hmod), bytesAt_of_le hle]
    exact ⟨chunksN (info.size / t) t (sliceBytes f info.offset info.size), rfl,
      chunksN_length t _ _⟩

/-- C4 counterexample to the claim as stated: reading the virtual lump at
position 0 of the opened archive exA4 panics; it does not produce the
posited recoverable size error. -/
theorem c4_cx_panic_not_size_error :
    is_virtual_lump exA4 0 = true ∧ (read_lump exF4 exA4 0 4).1 = .panicked ∧
    (∀ x y, (read_lump exF4 exA4 0 4).1 ≠ .sizeError x y) := by
  have he : (read_lump exF4 exA4 0 4).1 = .panicked := by decide
  refine ⟨by decide, he, ?_⟩
  intro x y h
  rw [he] at h
  exact ReadLumpResult.noConfusion h

/-- C4 witness: the amended claim at the concrete archive exA4, reading the
8-byte entry DATA as two 4-byte records. -/
theorem c4_witness :
    (openWad exF4 exM = .ok exA4 ∧
     exA4.lumps.get? 1 = some ⟨[68, 65, 84, 65, 0, 0, 0, 0], 44, 8⟩ ∧ 0 < 4) ∧
    (∃ recs, (read_lump exF4 exA4 1 4).1 = .ok recs ∧ recs.length = 2) := by
  have h := c4_read_sequence_size exF4 exM exA4 1 4 ⟨[68, 65, 84, 65, 0, 0, 0, 0], 44, 8⟩
    (by decide) (by decide) (by decide)
  refine ⟨⟨by decide, by decide, by decide⟩, ?_⟩
  obtain ⟨recs, hr, hl⟩ := h.2 (by decide) (by decide) (by decide)
  exact ⟨recs, hr, hl⟩

/-- C5 (amended): in an opened archive, a typed single-record read at an
in-range position aborts via assertion (not a recoverable size error)
unless the entry's length equals the record size exactly; when it does and
the byte range lies within the file, it succeeds with that one record. -/
theorem c5_read_single_size (f : List Nat) (m : Except String Metadata) (a : Archive)
    (i t : Nat) (info : LumpInfo)
    (_hopen : openWad f m = .ok a)
    (hi : a.lumps.get? i = some info) :
    (info.size ≠ t → (read_lump_single f a i t).1 = .panicked) ∧
    (info.size = t → info.offset + t ≤ f.length →
      (read_lump_single f a i t).1 = .ok (sliceBytes f info.offset t) ∧
      (sliceBytes f info.offset t).length = t) := by
  constructor
  · intro hne
    simp only [read_lump_single, hi]
    rw [if_pos hne]
  · intro heq hle
    simp only [read_lump_single, hi]
    rw [if_neg (fun hc => hc heq), bytesAt_of_le hle]
    exact ⟨rfl, sliceBytes_length hle⟩

/-- C5 counterexample to the claim as stated: a single-record read of the
8-byte entry DATA with a 4-byte record size panics; it does not produce
the posited recoverable size error. -/
theorem c5_cx_panic_not_size_error :
    (read_lump_single exF4 exA4 1 4).1 = .panicked ∧
    (∀ x y, (read_lump_single exF4 exA4 1 4).1 ≠ .sizeError x y) := by
  have he : (read_lump_single exF4 exA4 1 4).1 = .panicked := by decide
  refine ⟨he, ?_⟩
  intro x y h
  rw [he] at h
  exact ReadSingleResult.noConfusion h

/-- C5 witness: the amended claim at the concrete archive exA4, reading the
8-byte entry DATA as one 8-byte record. -/
theorem c5_witness :
    (openWad exF4 exM = .ok exA4 ∧
     exA4.lumps.get? 1 = some ⟨[68, 65, 84, 65, 0, 0, 0, 0], 44, 8⟩) ∧
    ((read_lump_single exF4 exA4 1 8).1 = .ok (sliceBytes exF4 44 8) ∧
     (sliceBytes exF4 44 8).length = 8) := by
  have h := c5_read_single_size exF4 exM exA4 1 8 ⟨[68, 65, 84, 65, 0, 0, 0, 0], 44, 8⟩
    (by decide) (by decide)
  exact ⟨⟨by decide, by decide⟩, h.2 (by decide) (by decide)⟩

/-- C9: neither typed read mutates anything in the Archive other than the
stream cursor — the catalog, the name map, the level markers and the bound
metadata of the resulting Archive all equal the originals, whatever the
read's outcome. -/
theorem c9_reads_preserve_state (f : List Nat) (a : Archive) (i t : Nat) :
    ((read_lump f a i t).2.index_map = a.index_map ∧
     (read_lump f a i t).2.lumps = a.lumps ∧
     (read_lump f a i t).2.levels = a.levels ∧
     (read_lump f a i t).2.meta = a.meta) ∧
    ((read_lump_single f a i t).2.index_map = a.index_map ∧
     (read_lump_single f a i t).2.lumps = a.lumps ∧
     (read_lump_single f a i t).2.levels = a.levels ∧
     (read_lump_single f a i t).2.meta = a.meta) := by
  constructor
  · simp only [read_lump]
    split
    · exact ⟨rfl, rfl, rfl, rfl⟩
    · split
      · exact ⟨rfl, rfl, rfl, rfl⟩
      · split
        · exact ⟨rfl, rfl, rfl, rfl⟩
        · split
          · exact ⟨rfl, rfl, rfl, rfl⟩
          · exact ⟨rfl, rfl, rfl, rfl⟩
  · simp only [read_lump_single]
    split
    · exact ⟨rfl, rfl, rfl, rfl⟩
    · split
      · exact ⟨rfl, rfl, rfl, rfl⟩
      · split
        · exact ⟨rfl, rfl, rfl, rfl⟩
        · exact ⟨rfl, rfl, rfl, rfl⟩

/-- C10: the read primitive returns Ok(()) on an empty buffer at once,
consuming nothing from the stream; and whenever it returns Ok(()), the
number of bytes written equals the full buffer length — it never succeeds
with a partially filled buffer. -/
theorem c10_read_at_least_exact (s : List ReadOutcome) (n : Nat)
    (rest : List ReadOutcome) (fl : Nat) :
    read_at_least s 0 = .ok s 0 ∧
    (read_at_least s n = .ok rest fl → fl = n) := by
  refine ⟨?_, fun h => ral_ok_filled s n rest fl h⟩
  cases s with
  | nil => rfl
  | cons o s2 => cases o <;> rfl

/-- C10 witness: the claim at a concrete trace delivering 2 then 1 bytes
into a 3-byte buffer. -/
theorem c10_witness :
    read_at_least [ReadOutcome.bytes 2, ReadOutcome.bytes 1] 0 =
      .ok [ReadOutcome.bytes 2, ReadOutcome.bytes 1] 0 ∧ (3 : Nat) = 3 := by
  have h := c10_read_at_least_exact [ReadOutcome.bytes 2, ReadOutcome.bytes 1] 3 [] 3
  exact ⟨h.1, h.2 (by decide)⟩

/-- C1: in every opened archive, lookup of a normalized name shared by the
entries at two positions i < j returns the position of the last entry in
directory order carrying that name — the highest such position — while
positional access still reaches every entry, duplicates included. -/
theorem c1_lookup_last_wins (f : List Nat) (m : Except String Metadata) (a : Archive)
    (nm : WadName) (i j : Nat)
    (hopen : openWad f m = .ok a)
    (_hij : i < j) (hj : j < (fileEntries f).length)
    (_hi : canonicalise (((fileEntries f).getD i dummyLump)).name = nm)
    (hjn : canonicalise (((fileEntries f).getD j dummyLump)).name = nm) :
    (∃ p, get_lump_index a nm = some p ∧ j ≤ p ∧ p < (fileEntries f).length ∧
      canonicalise (((fileEntries f).getD p dummyLump)).name = nm ∧
      ∀ q, q < (fileEntries f).length →
        canonicalise (((fileEntries f).getD q dummyLump)).name = nm → q ≤ p) ∧
    a.lumps.length = (fileEntries f).length ∧
    ∀ k, k < (fileEntries f).length →
      get_lump_name a k = canonicalise (((fileEntries f).getD k dummyLump)).name := by
  obtain ⟨_, _, ⟨st, hc, him, hlu, _⟩, _, _⟩ := openWad_ok hopen
  have hmap := buildCatalog_mGet (fileEntries f) initialState 0 st rfl hc nm
  obtain ⟨p, hp, hge⟩ := lastIdx_ge (fileEntries f) 0 nm j hj hjn
  rw [hp] at hmap
  obtain ⟨_, hpb, hpn⟩ := lastIdx_bounds (fileEntries f) 0 nm p hp
  rw [Nat.sub_zero] at hpb hpn
  have hlumps : a.lumps = (fileEntries f).map decodeEntry := by
    rw [hlu, buildCatalog_lumps (fileEntries f) initialState 0 st hc]
    rfl
  have hlen : a.lumps.length = (fileEntries f).length := by
    rw [hlumps, List.length_map]
  refine ⟨⟨p, ?_, by omega, hpb, hpn, ?_⟩, hlen, ?_⟩
  · rw [get_lump_index, him, hmap]
  · intro q hq hqn
    obtain ⟨p2, hp2, hge2⟩ := lastIdx_ge (fileEntries f) 0 nm q hq hqn
    rw [hp] at hp2
    injection hp2 with h12
    omega
  · intro k hk
    rw [get_lump_name, hlumps, getD_map_in decodeEntry dummyInfo dummyLump _ k hk]
    rfl

/-- C1 witness: the claim at the concrete container exF, whose entries 0
and 2 share the name AAAAAAAA; lookup returns 2 and every position still
resolves. -/
theorem c1_witness :
    (openWad exF exM = .ok exA ∧ 0 < 2 ∧ 2 < (fileEntries exF).length ∧
     canonicalise (((fileEntries exF).getD 0 dummyLump)).name = [65, 65, 65, 65, 65, 65, 65, 65] ∧
     canonicalise (((fileEntries exF).getD 2 dummyLump)).name = [65, 65, 65, 65, 65, 65, 65, 65]) ∧
    ((∃ p, get_lump_index exA [65, 65, 65, 65, 65, 65, 65, 65] = some p ∧ 2 ≤ p ∧
        p < (fileEntries exF).length ∧
        canonicalise (((fileEntries exF).getD p dummyLump)).name = [65, 65, 65, 65, 65, 65, 65, 65] ∧
        ∀ q, q < (fileEntries exF).length →
          canonicalise (((fileEntries exF).getD q dummyLump)).name = [65, 65, 65, 65, 65, 65, 65, 65] →
          q ≤ p) ∧
      exA.lumps.length = (fileEntries exF).length ∧
      ∀ k, k < (fileEntries exF).length →
        get_lump_name exA k = canonicalise (((fileEntries exF).getD k dummyLump)).name) :=
  ⟨⟨by decide, by decide, by decide, by decide, by decide⟩,
   c1_lookup_last_wins exF exM exA [65, 65, 65, 65, 65, 65, 65, 65] 0 2 (by decide) (by decide)
     (by decide) (by decide) (by decide)⟩

/-- C3: in every opened archive the level-marker sequence is exactly, in
directory order and without deduplication, position minus one for each
directory entry at a position above zero whose normalized name is the
sentinel; and the name of each level is the normalized name of the entry
at its marker position. -/
theorem c3_level_markers (f : List Nat) (m : Except String Metadata) (a : Archive)
    (hopen : openWad f m = .ok a) :
    a.levels =
      ((List.range (fileEntries f).length).filter
        (fun p => decide (0 < p ∧
          canonicalise (((fileEntries f).getD p dummyLump)).name = sentinelName))).map
        (fun p => p - 1) ∧
    ∀ k, k < a.levels.length →
      get_level_name a k =
        canonicalise (((fileEntries f).getD (a.levels.getD k 0) dummyLump)).name := by
  obtain ⟨_, _, ⟨st, hc, _, hlu, hlv⟩, _, _⟩ := openWad_ok hopen
  have hlev0 : a.levels = sentinelMarkers 0 (fileEntries f) := by
    rw [hlv, buildCatalog_levels (fileEntries f) initialState 0 st hc]
    rfl
  have hlumps : a.lumps = (fileEntries f).map decodeEntry := by
    rw [hlu, buildCatalog_lumps (fileEntries f) initialState 0 st hc]
    rfl
  have hfilter : sentinelMarkers 0 (fileEntries f) =
      ((List.range (fileEntries f).length).filter
        (fun p => decide (0 < p ∧
          canonicalise (((fileEntries f).getD p dummyLump)).name = sentinelName))).map
        (fun p => p - 1) := by
    cases hes : fileEntries f with
    | nil => simp [sentinelMarkers]
    | cons e rest =>
      have hhead : canonicalise e.name ≠ sentinelName := by
        rw [hes] at hc
        exact buildCatalog_ok_head hc
      rw [sentinelMarkers_cons, if_neg hhead]
      rw [List.range_eq_range', show (e :: rest).length = rest.length + 1 from rfl,
        List.range'_succ]
      rw [List.filter_cons]
      rw [if_neg (by simp)]
      have hfc : (List.range' 1 rest.length).filter
            (fun p => decide (0 < p ∧
              canonicalise (((e :: rest).getD p dummyLump)).name = sentinelName)) =
          (List.range' 1 rest.length).filter
            (fun p => decide (0 < p ∧
              canonicalise ((rest.getD (p - 1) dummyLump)).name = sentinelName)) := by
        apply List.filter_congr
        intro x hxm
        have hxb := List.mem_range'_1.mp hxm
        have hxi : x = (x - 1) + 1 := by omega
        rw [hxi, List.getD_cons_succ]
        rw [← hxi]
      rw [hfc]
      have hsm := sentinelMarkers_eq_filter rest 1 (by omega)
      rw [hsm]
  refine ⟨by rw [hlev0, hfilter], ?_⟩
  intro k hk
  have hmem : a.levels.getD k 0 ∈ a.levels := getD_mem' a.levels k 0 hk
  set v := a.levels.getD k 0 with hvdef
  rw [hlev0, hfilter] at hmem
  obtain ⟨p, hpf, hpv⟩ := List.mem_map.mp hmem
  have hpr := List.mem_filter.mp hpf
  have hplt : p < (fileEntries f).length := List.mem_range.mp hpr.1
  have hpv2 : p - 1 = v := hpv
  have hv : v < (fileEntries f).length := by omega
  simp only [get_level_name, get_lump_name]
  rw [← hvdef, hlumps, getD_map_in decodeEntry dummyInfo dummyLump _ v hv]
  rfl

/-- C3 witness: the claim at the concrete one-level container exF3
(entries E1M1, THINGS, LINEDEFS): the marker list is the filtered
positions minus one, and the level name is E1M1. -/
theorem c3_witness :
    openWad exF3 exM = .ok exA3 ∧
    (exA3.levels =
      ((List.range (fileEntries exF3).length).filter
        (fun p => decide (0 < p ∧
          canonicalise (((fileEntries exF3).getD p dummyLump)).name = sentinelName))).map
        (fun p => p - 1) ∧
    ∀ k, k < exA3.levels.length →
      get_level_name exA3 k =
        canonicalise (((fileEntries exF3).getD (exA3.levels.getD k 0) dummyLump)).name) :=
  ⟨by decide, c3_level_markers exF3 exM exA3 (by decide)⟩

end Wad
